import Mathlib

/-!
Verification development for the FastASGI routing and middleware core.

The definitions below are shallow embeddings of the Python source:
`fastasgi/middleware/middlewarechain.py`, `fastasgi/fastasgi.py` and
`fastasgi/routing/route.py`. Asynchronous functions are modelled as plain
functions (the middleware and matching logic contain no suspension points),
exceptions are modelled with `Except`, and Python sets/dicts are modelled
with lists preserving insertion order.
-/

namespace FastASGI

section MiddlewareChain

variable {Req Resp : Type}

/-- A middleware receives the request and the continuation, mirroring the
`MiddlewareCallable` protocol signature `(request, call_next) -> response`. -/
def Middleware (Req Resp : Type) : Type := Req → (Req → Resp) → Resp

/-- A terminal or composed handler: `request -> response`. -/
def Handler (Req Resp : Type) : Type := Req → Resp

/-- Embedding of `MiddlewareChain.build`: starting from the endpoint, iterate
the middleware list in reverse registration order, wrapping the accumulated
handler so that the first-registered middleware becomes the outermost layer. -/
def build (mws : List (Middleware Req Resp)) (endpoint : Handler Req Resp) :
    Handler Req Resp :=
  (mws.reverse).foldl (fun app mw => fun req => mw req app) endpoint

/-- A tracing middleware: records `name-enter`, defers to the continuation,
then records `name-exit`. Responses are traces (lists of strings). -/
def traceMw (name : String) : Middleware Unit (List String) :=
  fun _ next => (name ++ "-enter") :: next () ++ [name ++ "-exit"]

/-- A tracing terminal handler producing the single-entry trace `[t]`. -/
def traceTerminal (t : String) : Handler Unit (List String) :=
  fun _ => [t]

/-- Embedding of the middleware-relevant state of the `FastASGI` application
object: the chain contents, the composed handler and the built flag. -/
structure AppState (Req Resp : Type) where
  middlewares : List (Middleware Req Resp)
  appWithMiddleware : Option (Handler Req Resp)
  middlewareBuilt : Bool

/-- Embedding of `FastASGI._build_middleware_chain`: build the chain once,
guarded by the `_middleware_built` flag. -/
def buildMiddlewareChain (s : AppState Req Resp) (terminal : Handler Req Resp) :
    AppState Req Resp :=
  if s.middlewareBuilt then s
  else { s with
          appWithMiddleware := some (build s.middlewares terminal)
          middlewareBuilt := true }

/-- Embedding of `FastASGI.add_middleware`: the middleware is appended to the
chain first; afterwards, if the chain has already been built, a runtime
error is raised (the append is not rolled back, matching the source order). -/
def addMiddleware (s : AppState Req Resp) (m : Middleware Req Resp) :
    Except String Unit × AppState Req Resp :=
  let s2 : AppState Req Resp := { s with middlewares := s.middlewares ++ [m] }
  if s2.middlewareBuilt then
    (Except.error "Cannot add middleware after application startup. Add all middleware before starting the server.", s2)
  else (Except.ok (), s2)

end MiddlewareChain

section Routing

/-- The parameter kinds stored in `param_types` by `Route._get_param_type`:
the Python types `str`, `int`, `float`, `uuid.UUID` and the special string
marker `"path"`. -/
inductive ParamType where
  | pstr
  | pint
  | pfloat
  | puuid
  | ppath
deriving DecidableEq, Repr

/-- Structured rendering of the `ValueError` messages raised during `Route`
construction; each constructor carries exactly the dynamic data interpolated
into the corresponding message in the source. -/
inductive RouteError where
  | invalidMethods (ms : List String)
  | wildcard
  | unclosedParam (pos : Nat)
  | unsupportedType (typeName : String)
  | missingInHandler (names : List String)
  | missingInRoute (names : List String)
deriving DecidableEq, Repr

/-- Embedding of `Route._get_param_type`: look up the kind name in the fixed
`type_map`; unknown names raise an error naming the offending kind. -/
def getParamType (typeName : String) : Except RouteError ParamType :=
  if typeName = "str" then Except.ok ParamType.pstr
  else if typeName = "int" then Except.ok ParamType.pint
  else if typeName = "float" then Except.ok ParamType.pfloat
  else if typeName = "uuid" then Except.ok ParamType.puuid
  else if typeName = "path" then Except.ok ParamType.ppath
  else Except.error (RouteError.unsupportedType typeName)

/-- Embedding of `Route._parse_parameter_specification`: split the token text
on the first colon; without a colon the kind defaults to String. -/
def parseParameterSpecification (s : String) : Except RouteError (String × ParamType) :=
  if s.data.contains ':' then
    let name := String.mk (s.data.takeWhile (fun c => !(c == ':')))
    let tyName := String.mk ((s.data.dropWhile (fun c => !(c == ':'))).drop 1)
    (getParamType tyName).map (fun ty => (name, ty))
  else Except.ok (s, ParamType.pstr)

/-- A compiled pattern element: a literal character (escaping in the source
only protects regex metacharacters, so a literal is matched verbatim) or a
captured parameter. -/
inductive Tok where
  | lit (c : Char)
  | prm (name : String) (ty : ParamType)
deriving DecidableEq, Repr

/-- Embedding of the `_compile_path_pattern` scanning loop
(`_process_pattern_segment` / `_process_path_parameter` /
`_process_literal_character`): a single left-to-right scan. The second
argument is `none` outside a parameter token and `some acc` (accumulated
specification characters, reversed) inside one; the numeric argument tracks
the current index (the index of the opening brace while inside a token), used
only in the unclosed-parameter error. -/
def scanToks : List Char → Option (List Char) → Nat → Except RouteError (List Tok)
  | [], none, _ => Except.ok []
  | [], some _, startIdx => Except.error (RouteError.unclosedParam startIdx)
  | c :: rest, none, idx =>
    if c == '{' then scanToks rest (some []) idx
    else (scanToks rest none (idx + 1)).map (fun ts => Tok.lit c :: ts)
  | c :: rest, some acc, startIdx =>
    if c == '}' then
      (parseParameterSpecification (String.mk acc.reverse)).bind (fun nt =>
        (scanToks rest none (startIdx + acc.length + 2)).map
          (fun ts => Tok.prm nt.1 nt.2 :: ts))
    else scanToks rest (some (c :: acc)) startIdx

/-- Insert or update a key in an association list while keeping the position
of an existing key, mirroring assignment into a Python dict. -/
def upsert (l : List (String × ParamType)) (k : String) (v : ParamType) :
    List (String × ParamType) :=
  match l with
  | [] => [(k, v)]
  | (k0, v0) :: rest => if k0 = k then (k0, v) :: rest else (k0, v0) :: upsert rest k v

/-- The `param_types` dict built while compiling: parameter names in first
insertion order, later assignments updating in place. -/
def collectParamTypes (ts : List Tok) : List (String × ParamType) :=
  ts.foldl (fun acc t =>
    match t with
    | Tok.lit _ => acc
    | Tok.prm n ty => upsert acc n ty) []

/-- Embedding of `Route._compile_path_pattern`: reject wildcard characters,
then scan the template into tokens and collect the parameter dict. -/
def compilePathPattern (path : String) :
    Except RouteError (List Tok × List (String × ParamType)) :=
  if path.data.contains '*' then Except.error RouteError.wildcard
  else (scanToks path.data none 0).map (fun ts => (ts, collectParamTypes ts))

/-- Remove leading slash characters, as `lstrip("/")`. -/
def lstripSlash (l : List Char) : List Char := l.dropWhile (fun c => c == '/')

/-- Remove trailing slash characters, as `rstrip("/")`. -/
def rstripSlash (l : List Char) : List Char :=
  (l.reverse.dropWhile (fun c => c == '/')).reverse

/-- Embedding of the path normalization `path.rstrip("/") or "/"` used both
in `Route.__init__` and in `Route.matches`. -/
def normalizePath (path : String) : String :=
  let r := String.mk (rstripSlash path.data)
  if r = "" then "/" else r

/-- Embedding of `Route._count_path_segments`: count slash separators in the
stripped path, with the root and empty paths counting as one segment. -/
def countPathSegments (path : String) : Nat :=
  if path = "/" ∨ path = "" then 1
  else if path.data.getLast? = some '/' then
    let clean := lstripSlash path.data
    if clean = [] then 1 else clean.count '/' + 1
  else
    let clean := rstripSlash (lstripSlash path.data)
    if clean = [] then 1 else clean.count '/' + 1

/-- Whether a character is a lowercase hexadecimal digit, as the character
class `[0-9a-f]` in the UUID sub-pattern. -/
def isHexLower (c : Char) : Bool :=
  c.isDigit || (decide ('a' ≤ c) && decide (c ≤ 'f'))

/-- The language of the float sub-pattern `(\d+(?:\.\d+)?)`: one or more
digits, optionally followed by a point and one or more digits. -/
def isFloatShape (l : List Char) : Bool :=
  let ds := l.takeWhile Char.isDigit
  let rest := l.drop ds.length
  !ds.isEmpty &&
    (rest.isEmpty ||
      (rest.head? == some '.' && !rest.tail.isEmpty && rest.tail.all Char.isDigit))

/-- The language of the UUID sub-pattern: the canonical hyphenated
8-4-4-4-12 lowercase hexadecimal form (36 characters, hyphens at indices
8, 13, 18 and 23). -/
def isUuidShape (l : List Char) : Bool :=
  l.length == 36 &&
    l.enum.all (fun p =>
      if p.1 == 8 || p.1 == 13 || p.1 == 18 || p.1 == 23 then p.2 == '-'
      else isHexLower p.2)

/-- The set of strings each parameter sub-pattern from
`Route._get_regex_for_parameter_type` can match: digits for `int`, the float
shape for `float`, the canonical form for `uuid`, anything (possibly empty)
for `path`, and one or more non-slash characters for `str`. Digits are
modelled as ASCII digits. -/
def tokAccept : ParamType → List Char → Bool
  | ParamType.pint, l => !l.isEmpty && l.all Char.isDigit
  | ParamType.pfloat, l => isFloatShape l
  | ParamType.puuid, l => isUuidShape l
  | ParamType.ppath, _ => true
  | ParamType.pstr, l => !l.isEmpty && l.all (fun c => !(c == '/'))

/-- All decompositions of a string into a captured part and a remainder,
longest capture first — the order in which a greedy backtracking regex engine
tries the candidates for a capture group. -/
def splitsLongestFirst (s : List Char) : List (List Char × List Char) :=
  ((List.range (s.length + 1)).reverse).map (fun n => (s.take n, s.drop n))

/-- Anchored match of a compiled token list against a path, returning the
captured group texts in order. A parameter tries candidate captures greedily
(longest first) and keeps the first decomposition that lets the rest of the
pattern match, which is the choice a greedy backtracking engine commits to. -/
def matchToks : List Tok → List Char → Option (List (List Char))
  | [], s => if s.isEmpty then some [] else none
  | Tok.lit _ :: _, [] => none
  | Tok.lit c :: ts, c0 :: rest => if c0 == c then matchToks ts rest else none
  | Tok.prm _ ty :: ts, s =>
    (splitsLongestFirst s).foldl
      (fun acc pr =>
        match acc with
        | some r => some r
        | none =>
          if tokAccept ty pr.1 then (matchToks ts pr.2).map (fun caps => pr.1 :: caps)
          else none)
      none

/-- A converted path-parameter value, as stored into the `path_params` dict
by `Route._extract_path_parameters`. Float and UUID values keep their raw
text; their numeric interpretation is not consumed by the routing core. -/
inductive PValue where
  | vInt (n : Int)
  | vFloat (raw : String)
  | vUuid (raw : String)
  | vStr (s : String)
deriving DecidableEq, Repr

/-- Digit run to a natural number. -/
def digitsToNat (l : List Char) : Nat :=
  l.foldl (fun n c => 10 * n + (c.toNat - 48)) 0

/-- Model of the Python conversion `int(raw)`: an optional sign followed by
one or more digits (failure on anything else). -/
def pyIntParse (s : String) : Option Int :=
  match s.data with
  | [] => none
  | '-' :: ds =>
    if !ds.isEmpty && ds.all Char.isDigit then some (-(digitsToNat ds : Int)) else none
  | '+' :: ds =>
    if !ds.isEmpty && ds.all Char.isDigit then some (digitsToNat ds : Int) else none
  | ds => if ds.all Char.isDigit then some (digitsToNat ds : Int) else none

/-- Embedding of the per-kind conversion performed in
`Route._extract_path_parameters`; `none` models a conversion raising
`ValueError`/`TypeError`. String and path parameters store the raw text. -/
def convertParam : ParamType → String → Option PValue
  | ParamType.pint, raw => (pyIntParse raw).map PValue.vInt
  | ParamType.pfloat, raw =>
    if isFloatShape raw.data then some (PValue.vFloat raw) else none
  | ParamType.puuid, raw =>
    if isUuidShape raw.data then some (PValue.vUuid raw) else none
  | ParamType.ppath, raw => some (PValue.vStr raw)
  | ParamType.pstr, raw => some (PValue.vStr raw)

/-- Embedding of `Route._extract_path_parameters`: walk the parameter names
in insertion order against the captured groups, converting each; any
conversion failure makes the whole extraction report no match with an empty
parameter map. -/
def extractPathParameters :
    List (String × ParamType) → List (List Char) → Bool × List (String × PValue)
  | [], _ => (true, [])
  | (name, ty) :: pts, caps =>
    match caps with
    | [] => (false, [])
    | raw :: rest =>
      match convertParam ty (String.mk raw) with
      | none => (false, [])
      | some v =>
        match extractPathParameters pts rest with
        | (false, _) => (false, [])
        | (true, l) => (true, (name, v) :: l)

/-- Embedding of a constructed `Route` object: the normalized path, the
accepted methods, the declared handler parameter names, the compiled tokens
and parameter dict, and the precomputed matching data. -/
structure Route where
  path : String
  methods : List String
  handlerParams : List String
  toks : List Tok
  paramTypes : List (String × ParamType)
  segmentCount : Nat
  hasPathParameter : Bool
  priority : Int
deriving DecidableEq, Repr

/-- The fixed valid HTTP method set checked by `Route._invalid_http_methods`. -/
def validHttpMethods : List String :=
  ["GET", "POST", "PUT", "DELETE", "PATCH", "HEAD", "OPTIONS"]

/-- Embedding of `Route._invalid_http_methods`: the methods outside the
fixed valid set. -/
def invalidHttpMethods (methods : List String) : List String :=
  methods.filter (fun m => !(validHttpMethods.contains m))

/-- Embedding of `Route._validate_parameter_consistency` (with the handler
name list from `_inspect_handler_signature`): every pattern parameter must
appear among the handler parameters (excluding the reserved `request` slot)
and conversely, each direction failing with an error carrying the offending
names. The route pattern text interpolated into the source messages is not
carried, the structured error already identifying the offending names. -/
def validateParameterConsistency
    (pts : List (String × ParamType)) (handlerParams : List String) :
    Except RouteError Unit :=
  let routeParams := pts.map Prod.fst
  let handlerPathParams := handlerParams.filter (fun p => !(p == "request"))
  let missingInHandler := routeParams.filter (fun p => !(handlerPathParams.contains p))
  if missingInHandler ≠ [] then Except.error (RouteError.missingInHandler missingInHandler)
  else
    let missingInRoute := handlerPathParams.filter (fun p => !(routeParams.contains p))
    if missingInRoute ≠ [] then Except.error (RouteError.missingInRoute missingInRoute)
    else Except.ok ()

/-- Embedding of `Route.__init__`: normalize the path, validate the methods
(`methods or {"GET"}` supplies the default), compile the pattern, precompute
the segment count and the tail-parameter flag, then validate the handler
signature against the pattern parameters. -/
def mkRoute (path : String) (handlerParams : List String)
    (methods : List String) (priority : Int) : Except RouteError Route :=
  let npath := normalizePath path
  let ms := if methods.isEmpty then ["GET"] else methods
  if invalidHttpMethods ms ≠ [] then
    Except.error (RouteError.invalidMethods (invalidHttpMethods ms))
  else
    (compilePathPattern npath).bind (fun tp =>
      let segCount := countPathSegments npath
      let hasPP := tp.2.any (fun p => p.2 == ParamType.ppath)
      (validateParameterConsistency tp.2 handlerParams).map (fun _ =>
        { path := npath
          methods := ms
          handlerParams := handlerParams
          toks := tp.1
          paramTypes := tp.2
          segmentCount := segCount
          hasPathParameter := hasPP
          priority := priority }))

/-- Model of the Python `str.upper()` applied to HTTP method names,
character by character (ASCII uppercasing). -/
def pyUpper (s : String) : String := String.mk (s.data.map Char.toUpper)

/-- Embedding of `Route.matches`: method gate, segment-count heuristic, then
the two-phase pattern match — for routes with a tail parameter the raw path
is tried first, and otherwise (or when the raw attempt fails) the
trailing-slash-normalized path is tried. -/
def Route.matches (r : Route) (path method : String) :
    Bool × List (String × PValue) :=
  if !(r.methods.contains (pyUpper method)) then (false, [])
  else
    let requestSegs := countPathSegments path
    let normalizedSegs := countPathSegments (normalizePath path)
    let segmentMatch :=
      requestSegs == r.segmentCount || normalizedSegs == r.segmentCount ||
        (decide (requestSegs > r.segmentCount) && r.hasPathParameter)
    if !segmentMatch then (false, [])
    else
      match (if r.hasPathParameter then matchToks r.toks path.data else none) with
      | some caps => extractPathParameters r.paramTypes caps
      | none =>
        match matchToks r.toks (normalizePath path).data with
        | none => (false, [])
        | some caps => extractPathParameters r.paramTypes caps

/-- Two adjacent slash characters somewhere in the list: the template has an
empty interior or leading segment. -/
def hasDoubleSlash : List Char → Bool
  | [] => false
  | [_] => false
  | a :: b :: rest => (a == '/' && b == '/') || hasDoubleSlash (b :: rest)

/-- Split a character list on slash separators (claim-side definition used to
state the segment-count property). -/
def splitSegs : List Char → List (List Char)
  | [] => [[]]
  | c :: rest =>
    let r := splitSegs rest
    if c == '/' then [] :: r
    else (c :: r.headD []) :: r.tail

/-- The number of non-empty slash-delimited segments of a character list. -/
def nonEmptySegsLen (l : List Char) : Nat :=
  ((splitSegs l).filter (fun g => !g.isEmpty)).length

/-- The count the specification describes: the number of slash-delimited
non-empty segments of a template. -/
def specNonEmptySegCount (s : String) : Nat := nonEmptySegsLen s.data

/-- Scanning formulation of the non-empty segment count: the number of
maximal runs of non-slash characters; the flag records whether the scan is
currently inside such a run. -/
def countRuns : List Char → Bool → Nat
  | [], _ => 0
  | c :: rest, inRun =>
    if c == '/' then countRuns rest false
    else (if inRun then 0 else 1) + countRuns rest true

/-- Whether the list starts with a character other than a slash. -/
def headNonSlash (l : List Char) : Bool :=
  match l with
  | [] => false
  | c :: _ => !(c == '/')

end Routing

section RoutingHelperLemmas

/-- A valid scalar value converted through `Char.ofNat` keeps its code. -/
theorem toNat_charOfNat_of_valid (m : Nat) (h : m.isValidChar) :
    (Char.ofNat m).toNat = m := by
  simp only [Char.ofNat, h, dite_true]
  simp [Char.ofNatAux, Char.toNat, UInt32.toNat]

/-- ASCII uppercasing is idempotent on characters. -/
theorem toUpper_toUpper (c : Char) : c.toUpper.toUpper = c.toUpper := by
  unfold Char.toUpper
  by_cases h : c.toNat ≥ 97 ∧ c.toNat ≤ 122
  · have hv : (c.toNat - 32).isValidChar := by
      constructor
      omega
    have h2 : (Char.ofNat (c.toNat - 32)).toNat = c.toNat - 32 :=
      toNat_charOfNat_of_valid _ hv
    have hno : ¬(97 ≤ c.toNat - 32 ∧ c.toNat - 32 ≤ 122) := by omega
    rcases h with ⟨h97, h122⟩
    simp only [ge_iff_le, h97, h122, and_self, if_true, ite_true, h2]
    rw [if_neg hno]
  · simp [h]

/-- The method uppercasing used by `Route.matches` is idempotent. -/
theorem pyUpper_pyUpper (s : String) : pyUpper (pyUpper s) = pyUpper s := by
  unfold pyUpper
  simp only [List.map_map]
  congr 1
  exact List.map_congr_left (fun a _ => toUpper_toUpper a)

end RoutingHelperLemmas

section SegmentCountLemmas

theorem splitSegs_ne_nil (l : List Char) : splitSegs l ≠ [] := by
  cases l with
  | nil => simp [splitSegs]
  | cons c rest =>
    simp only [splitSegs]
    by_cases h : c == '/' <;> simp [h]

theorem headD_splitSegs_eq_nil (r : List Char) :
    ((splitSegs r).headD [] = []) ↔ headNonSlash r = false := by
  cases r with
  | nil => simp [splitSegs, headNonSlash]
  | cons c rest =>
    simp only [splitSegs, headNonSlash]
    by_cases h : c == '/' <;> simp [h]

theorem countRuns_eq_nonEmptySegsLen (l : List Char) :
    countRuns l false = nonEmptySegsLen l ∧
    countRuns l true + (if headNonSlash l then 1 else 0) = nonEmptySegsLen l := by
  induction l with
  | nil => simp [countRuns, nonEmptySegsLen, splitSegs, headNonSlash]
  | cons c r ih =>
    by_cases h : c == '/'
    · have hc : c = '/' := by simpa using h
      subst hc
      have hsplit : nonEmptySegsLen ('/' :: r) = nonEmptySegsLen r := by
        simp [nonEmptySegsLen, splitSegs]
      constructor
      · simpa [countRuns, hsplit] using ih.1
      · simpa [countRuns, headNonSlash, hsplit] using ih.1
    · obtain ⟨hseg, htl⟩ : ∃ hseg htl, splitSegs r = hseg :: htl := by
        cases hs : splitSegs r with
        | nil => exact absurd hs (splitSegs_ne_nil r)
        | cons a b => exact ⟨a, b, rfl⟩
      obtain ⟨htl, hs⟩ := htl
      have hsplit : splitSegs (c :: r) = (c :: hseg) :: htl := by
        simp [splitSegs, h, hs]
      have hCr : nonEmptySegsLen r =
          (if hseg.isEmpty then 0 else 1) +
            ((htl.filter (fun g => !g.isEmpty)).length) := by
        simp only [nonEmptySegsLen, hs, List.filter_cons]
        by_cases he : hseg.isEmpty <;> simp [he, Nat.add_comm]
      have hCcr : nonEmptySegsLen (c :: r) =
          1 + ((htl.filter (fun g => !g.isEmpty)).length) := by
        simp only [nonEmptySegsLen, hsplit, List.filter_cons]
        simp [Nat.add_comm]
      have hhead : (if headNonSlash r then 1 else 0) =
          (if hseg.isEmpty then 0 else 1) := by
        have h1 := headD_splitSegs_eq_nil r
        rw [hs] at h1
        simp only [List.headD_cons] at h1
        by_cases hr : headNonSlash r
        · have : ¬ hseg = [] := by
            intro he
            rw [h1] at he
            simp [hr] at he
          simp [hr, List.isEmpty_iff, this]
        · have : hseg = [] := h1.mpr (by simpa using hr)
          simp [hr, this]
      have htrue : countRuns r true = (htl.filter (fun g => !g.isEmpty)).length := by
        have := ih.2
        rw [hCr, hhead] at this
        omega
      constructor
      · have hstep : countRuns (c :: r) false = 1 + countRuns r true := by
          simp [countRuns, h]
        rw [hstep, hCcr, htrue]
      · have hstep : countRuns (c :: r) true = countRuns r true := by
          simp [countRuns, h]
        have hh : headNonSlash (c :: r) = true := by
          simp [headNonSlash, h]
        rw [hstep, hCcr, htrue, hh]
        simp [Nat.add_comm]

theorem hasDoubleSlash_cons (c : Char) (r : List Char) :
    hasDoubleSlash (c :: r) =
      ((c == '/') && (r.headD ' ' == '/') && !r.isEmpty || hasDoubleSlash r) := by
  cases r with
  | nil => simp [hasDoubleSlash]
  | cons b rest => simp [hasDoubleSlash]

theorem countRuns_count (l : List Char) (hnd : hasDoubleSlash l = false)
    (hend : l.getLast? ≠ some '/') :
    countRuns l true = l.count '/' ∧
    (l ≠ [] → l.head? ≠ some '/' → countRuns l false = l.count '/' + 1) := by
  induction l with
  | nil => simp [countRuns]
  | cons c r ih =>
    have hndr : hasDoubleSlash r = false := by
      rw [hasDoubleSlash_cons] at hnd
      exact (Bool.or_eq_false_iff.mp hnd).2
    have hendr : r.getLast? ≠ some '/' := by
      cases r with
      | nil => simp
      | cons b rest =>
        rw [List.getLast?_cons_cons] at hend
        exact hend
    have ihr := ih hndr hendr
    by_cases h : c == '/'
    · have hc : c = '/' := by simpa using h
      subst hc
      have hrne : r ≠ [] := by
        intro hr
        subst hr
        simp at hend
      have hrhead : r.head? ≠ some '/' := by
        rw [hasDoubleSlash_cons] at hnd
        have := (Bool.or_eq_false_iff.mp hnd).1
        intro hh
        cases r with
        | nil => simp at hh
        | cons b rest =>
          simp only [List.head?_cons, Option.some.injEq] at hh
          subst hh
          simp at this
      have hfalse := ihr.2 hrne hrhead
      constructor
      · have : countRuns ('/' :: r) true = countRuns r false := by
          simp [countRuns]
        rw [this, hfalse]
        simp [List.count_cons]
      · intro _ hhead
        simp at hhead
    · have hc : c ≠ '/' := by simpa using h
      constructor
      · have : countRuns (c :: r) true = countRuns r true := by
          simp [countRuns, h]
        rw [this, ihr.1]
        simp [List.count_cons, hc]
      · intro _ _
        have : countRuns (c :: r) false = 1 + countRuns r true := by
          simp [countRuns, h]
        rw [this, ihr.1]
        simp [List.count_cons, hc]
        omega

theorem countRuns_replicate_slash (k : Nat) (b : Bool) :
    countRuns (List.replicate k '/') b = 0 := by
  induction k generalizing b with
  | zero => simp [countRuns]
  | succ n ih => simp [List.replicate_succ, countRuns, ih]

theorem countRuns_append_replicate (v : List Char) (k : Nat) (b : Bool) :
    countRuns (v ++ List.replicate k '/') b = countRuns v b := by
  induction v generalizing b with
  | nil => simp [countRuns, countRuns_replicate_slash]
  | cons c v ih =>
    by_cases h : c == '/' <;> simp [countRuns, h, ih]

theorem rstripSlash_decomp (l : List Char) :
    ∃ k, l = rstripSlash l ++ List.replicate k '/' := by
  refine ⟨(l.reverse.takeWhile (fun c => c == '/')).length, ?_⟩
  have h := List.takeWhile_append_dropWhile (p := fun c => c == '/') (l := l.reverse)
  have hrep : (l.reverse.takeWhile (fun c => c == '/')).reverse =
      List.replicate (l.reverse.takeWhile (fun c => c == '/')).length '/' := by
    rw [List.eq_replicate_iff]
    refine ⟨by simp, ?_⟩
    intro b hb
    have hb2 := List.mem_reverse.mp hb
    have := List.mem_takeWhile_imp hb2
    simpa using this
  calc l = l.reverse.reverse := by simp
    _ = ((l.reverse.takeWhile (fun c => c == '/')) ++
          (l.reverse.dropWhile (fun c => c == '/'))).reverse := by rw [h]
    _ = rstripSlash l ++ (l.reverse.takeWhile (fun c => c == '/')).reverse := by
          rw [List.reverse_append]
          rfl
    _ = rstripSlash l ++ List.replicate (l.reverse.takeWhile (fun c => c == '/')).length '/' := by
          rw [hrep]

theorem rstripSlash_getLast (l : List Char) :
    (rstripSlash l).getLast? ≠ some '/' := by
  unfold rstripSlash
  rw [List.getLast?_reverse]
  have h := List.head?_dropWhile_not (fun c => c == '/') l.reverse
  intro hc
  rw [hc] at h
  simp at h

theorem rstripSlash_of_getLast (l : List Char) (h : l.getLast? ≠ some '/') :
    rstripSlash l = l := by
  unfold rstripSlash
  cases hr : l.reverse with
  | nil =>
    have : l = [] := by simpa using congrArg List.reverse hr
    simp [this]
  | cons c rest =>
    have hc : ¬(c == '/') = true := by
      have hh : l.reverse.head? = l.getLast? := List.head?_reverse l
      rw [hr] at hh
      intro hcc
      have : c = '/' := by simpa using hcc
      subst this
      exact h hh.symm
    rw [List.dropWhile_cons, if_neg hc]
    rw [← hr]
    simp

theorem rstripSlash_head (l : List Char) (hne : l ≠ [])
    (hhead : l.head? ≠ some '/') :
    rstripSlash l ≠ [] ∧ (rstripSlash l).head? = l.head? := by
  obtain ⟨k, hk⟩ := rstripSlash_decomp l
  cases hw : rstripSlash l with
  | nil =>
    rw [hw] at hk
    simp only [List.nil_append] at hk
    exfalso
    cases k with
    | zero =>
      rw [hk] at hne
      simp at hne
    | succ n =>
      rw [hk] at hhead
      simp [List.replicate_succ] at hhead
  | cons w0 ws =>
    refine ⟨by simp, ?_⟩
    rw [hw] at hk
    rw [hk]
    simp

theorem lstripSlash_of_head (l : List Char) (hhead : l.head? ≠ some '/') :
    lstripSlash l = l := by
  cases l with
  | nil => rfl
  | cons c rest =>
    have hc : ¬(c == '/') = true := by
      intro hcc
      have : c = '/' := by simpa using hcc
      subst this
      simp at hhead
    simp [lstripSlash, List.dropWhile_cons, hc]

theorem hasDoubleSlash_append (a b : List Char) (h : hasDoubleSlash a = true) :
    hasDoubleSlash (a ++ b) = true := by
  induction a with
  | nil => simp [hasDoubleSlash] at h
  | cons c a ih =>
    cases a with
    | nil => simp [hasDoubleSlash] at h
    | cons d rest =>
      simp only [hasDoubleSlash, Bool.or_eq_true] at h
      rcases h with h | h
      · simp [hasDoubleSlash, h]
      · have := ih h
        simp only [List.cons_append] at this ⊢
        simp [hasDoubleSlash]
        right
        simpa using this

theorem dropWhile_slash_replicate (k : Nat) (vr : List Char) :
    (List.replicate k '/' ++ vr).dropWhile (fun c => c == '/') =
      vr.dropWhile (fun c => c == '/') := by
  induction k with
  | zero => simp
  | succ n ih => simp [List.replicate_succ, List.dropWhile_cons, ih]

theorem rstripSlash_append_replicate (v : List Char) (k : Nat) :
    rstripSlash (v ++ List.replicate k '/') = rstripSlash v := by
  unfold rstripSlash
  rw [List.reverse_append, List.reverse_replicate, dropWhile_slash_replicate]

theorem countPathSegments_eq_nonempty (t : String)
    (h1 : t.data.head? = some '/')
    (h2 : hasDoubleSlash t.data = false) :
    countPathSegments (normalizePath t) =
      if t = "/" then 1 else specNonEmptySegCount t := by
  obtain ⟨l⟩ := t
  cases l with
  | nil => simp at h1
  | cons c u =>
    have hc : c = '/' := by simpa using h1
    subst hc
    by_cases hu : u = []
    · subst hu
      rw [if_pos rfl]
      decide
    · have hne : String.mk ('/' :: u) ≠ "/" := by
        intro hcontr
        have : '/' :: u = ['/'] := by
          simpa using congrArg String.data hcontr
        simp [hu] at this
      rw [if_neg hne]
      have hu_head : u.head? ≠ some '/' := by
        cases u with
        | nil => simp
        | cons d rest =>
          intro hh
          have hd : d = '/' := by simpa using hh
          subst hd
          simp [hasDoubleSlash] at h2
      have hndu : hasDoubleSlash u = false := by
        cases u with
        | nil => rfl
        | cons d rest =>
          simp only [hasDoubleSlash, Bool.or_eq_false_iff] at h2
          exact h2.2
      obtain ⟨k, hk⟩ := rstripSlash_decomp u
      have hw := rstripSlash_head u hu hu_head
      obtain ⟨hwne, hwhead⟩ := hw
      have hwend : (rstripSlash u).getLast? ≠ some '/' := rstripSlash_getLast u
      have hndw : hasDoubleSlash (rstripSlash u) = false := by
        by_contra hcon
        have : hasDoubleSlash (rstripSlash u) = true := by
          simpa using hcon
        have h3 := hasDoubleSlash_append _ (List.replicate k '/') this
        rw [← hk] at h3
        rw [h3] at hndu
        exact Bool.true_eq_false.mp hndu
      have hwh2 : (rstripSlash u).head? ≠ some '/' := by
        rw [hwhead]
        exact hu_head
      -- normalization: rstripSlash of the full path
      have hget : ('/' :: rstripSlash u).getLast? ≠ some '/' := by
        cases hwcase : rstripSlash u with
        | nil => exact absurd hwcase hwne
        | cons w0 ws =>
          rw [List.getLast?_cons_cons]
          rw [← hwcase]
          exact hwend
      have hnorm : rstripSlash ('/' :: u) = '/' :: rstripSlash u := by
        have : ('/' : Char) :: u = ('/' :: rstripSlash u) ++ List.replicate k '/' := by
          rw [List.cons_append, ← hk]
        rw [this, rstripSlash_append_replicate]
        exact rstripSlash_of_getLast _ hget
      have hnormPath : normalizePath (String.mk ('/' :: u)) =
          String.mk ('/' :: rstripSlash u) := by
        unfold normalizePath
        simp only [hnorm]
        rw [if_neg]
        intro hcontr
        have : ('/' : Char) :: rstripSlash u = [] := by
          simpa using congrArg String.data hcontr
        simp at this
      rw [hnormPath]
      -- left side: countPathSegments of the normalized path
      have hlhs : countPathSegments (String.mk ('/' :: rstripSlash u)) =
          (rstripSlash u).count '/' + 1 := by
        unfold countPathSegments
        rw [if_neg]
        · rw [if_neg]
          · have hlstrip : lstripSlash ('/' :: rstripSlash u) = rstripSlash u := by
              simp only [lstripSlash, List.dropWhile_cons]
              simp only [beq_self_eq_true, if_true]
              exact lstripSlash_of_head _ hwh2
            rw [hlstrip]
            rw [rstripSlash_of_getLast _ hwend]
            rw [if_neg hwne]
          · show ¬(String.mk ('/' :: rstripSlash u)).data.getLast? = some '/'
            exact hget
        · push_neg
          constructor
          · intro hcontr
            have : ('/' : Char) :: rstripSlash u = ['/'] := by
              simpa using congrArg String.data hcontr
            simp [hwne] at this
          · intro hcontr
            have : ('/' : Char) :: rstripSlash u = [] := by
              simpa using congrArg String.data hcontr
            simp at this
      rw [hlhs]
      -- right side: the claimed non-empty segment count
      have hrhs : specNonEmptySegCount (String.mk ('/' :: u)) =
          (rstripSlash u).count '/' + 1 := by
        unfold specNonEmptySegCount
        rw [← (countRuns_eq_nonEmptySegsLen ('/' :: u)).1]
        have hstep : countRuns ('/' :: u) false = countRuns u false := by
          simp [countRuns]
        have hcr : countRuns u false = countRuns (rstripSlash u) false := by
          conv_lhs => rw [hk]
          rw [countRuns_append_replicate]
        rw [hstep, hcr]
        exact ((countRuns_count (rstripSlash u) hndw hwend).2 hwne hwh2)
      rw [hrhs]

theorem mkRoute_segmentCount (path : String) (hps ms : List String) (prio : Int)
    (r : Route) (h : mkRoute path hps ms prio = Except.ok r) :
    r.segmentCount = countPathSegments (normalizePath path) := by
  simp only [mkRoute] at h
  by_cases hm : invalidHttpMethods (if ms.isEmpty then ["GET"] else ms) = []
  · rw [if_neg (show ¬(invalidHttpMethods (if ms.isEmpty then ["GET"] else ms) ≠ [])
        from fun hne => hne hm)] at h
    cases hc : compilePathPattern (normalizePath path) with
    | error e =>
      rw [hc] at h
      simp [Except.bind] at h
    | ok tp =>
      rw [hc] at h
      simp only [Except.bind] at h
      cases hv : validateParameterConsistency tp.2 hps with
      | error e =>
        rw [hv] at h
        simp [Except.map] at h
      | ok unitv =>
        rw [hv] at h
        simp only [Except.map, Except.ok.injEq] at h
        rw [← h]
  · rw [if_pos hm] at h
    simp at h

end SegmentCountLemmas

section MiddlewareClaims

variable {Req Resp : Type}

/-- Claim C1: for middleware registered in order `[A, B, C]` around terminal
`T`, invoking the handler returned by `MiddlewareChain.build` produces exactly
the trace `A-enter, B-enter, C-enter, T, C-exit, B-exit, A-exit`: the
first-registered middleware is the outermost layer of the onion. -/
theorem build_onion_trace (a b c t : String) :
    build [traceMw a, traceMw b, traceMw c] (traceTerminal t) () =
      [a ++ "-enter", b ++ "-enter", c ++ "-enter", t,
       c ++ "-exit", b ++ "-exit", a ++ "-exit"] := by
  rfl

/-- Claim C4: once the chain has been built, adding a middleware fails with an
explicit configuration error, and the already-built composed handler is not
altered by the attempt: it is still exactly the composition of the middleware
present at build time. -/
theorem add_after_build_fails_and_preserves_handler
    (s0 : AppState Req Resp) (term : Handler Req Resp) (m : Middleware Req Resp)
    (h : s0.middlewareBuilt = false) :
    (addMiddleware (buildMiddlewareChain s0 term) m).1 =
      Except.error "Cannot add middleware after application startup. Add all middleware before starting the server." ∧
    ((addMiddleware (buildMiddlewareChain s0 term) m).2).appWithMiddleware =
      some (build s0.middlewares term) := by
  simp [buildMiddlewareChain, addMiddleware, h]

/-- Witness for C4 at a concrete application state. -/
theorem add_after_build_fails_and_preserves_handler_witness :
    (AppState.mk ([] : List (Middleware Unit (List String))) none false).middlewareBuilt = false ∧
    ((addMiddleware (buildMiddlewareChain
        (AppState.mk ([] : List (Middleware Unit (List String))) none false)
        (traceTerminal "T")) (traceMw "A")).1 =
      Except.error "Cannot add middleware after application startup. Add all middleware before starting the server." ∧
    ((addMiddleware (buildMiddlewareChain
        (AppState.mk ([] : List (Middleware Unit (List String))) none false)
        (traceTerminal "T")) (traceMw "A")).2).appWithMiddleware =
      some (build [] (traceTerminal "T"))) :=
  ⟨rfl, add_after_build_fails_and_preserves_handler _ _ _ rfl⟩

/-- Claim C5: after the chain has been built, calling build again (even with
arbitrarily mutated chain contents and a different terminal) leaves the
composed handler exactly as produced by the first call: the chain is never
silently rebuilt over mutated contents. -/
theorem build_again_returns_same_handler
    (s0 : AppState Req Resp) (term term2 : Handler Req Resp)
    (l2 : List (Middleware Req Resp)) (h : s0.middlewareBuilt = false) :
    (buildMiddlewareChain
        { buildMiddlewareChain s0 term with middlewares := l2 } term2).appWithMiddleware =
      some (build s0.middlewares term) := by
  simp [buildMiddlewareChain, h]

/-- Witness for C5 at a concrete application state with mutated contents. -/
theorem build_again_returns_same_handler_witness :
    (AppState.mk ([] : List (Middleware Unit (List String))) none false).middlewareBuilt = false ∧
    (buildMiddlewareChain
        { buildMiddlewareChain
            (AppState.mk ([] : List (Middleware Unit (List String))) none false)
            (traceTerminal "T") with middlewares := [traceMw "A"] }
        (traceTerminal "U")).appWithMiddleware =
      some (build [] (traceTerminal "T")) :=
  ⟨rfl, build_again_returns_same_handler _ _ _ _ rfl⟩

end MiddlewareClaims

section RoutingClaims

/-- Claim C2 (code bug): the kind names accepted by `Route._get_param_type`
are `str`, `int`, `float`, `uuid` and `path`; the kind name `multipath`,
which the spec, the test suite and the examples use for multi-segment
parameters, is rejected with an error naming the offending kind. -/
theorem getParamType_kind_names :
    getParamType "multipath" = Except.error (RouteError.unsupportedType "multipath") ∧
    getParamType "str" = Except.ok ParamType.pstr ∧
    getParamType "int" = Except.ok ParamType.pint ∧
    getParamType "float" = Except.ok ParamType.pfloat ∧
    getParamType "uuid" = Except.ok ParamType.puuid ∧
    getParamType "path" = Except.ok ParamType.ppath :=
  ⟨rfl, rfl, rfl, rfl, rfl, rfl⟩

/-- Claim C3 (code bug): constructing a route from the template
`/files/{p:multipath}` fails outright, because the `multipath` kind name is
not in the type map; under the kind name `path` actually accepted by the
code, the claimed matching behaviour does hold — `/files/a/b/c` yields
`p = "a/b/c"` and `/files/` yields `p = ""` via the raw-path-first match. -/
theorem multipath_template_construction_fails :
    mkRoute "/files/{p:multipath}" ["p"] ["GET"] 0 =
      Except.error (RouteError.unsupportedType "multipath") ∧
    (mkRoute "/files/{p:path}" ["p"] ["GET"] 0).map
        (fun r => (r.matches "/files/a/b/c" "GET", r.matches "/files/" "GET")) =
      Except.ok ((true, [("p", PValue.vStr "a/b/c")]),
                 (true, [("p", PValue.vStr "")])) :=
  ⟨rfl, rfl⟩

/-- Claim C6 (code bug): the overlapping-priority scenario cannot even be
registered, because constructing the priority-1 route
`/special/{path:multipath}` fails on the unsupported kind name `multipath`;
the priority-10 and priority-5 routes of the scenario construct and match as
described. -/
theorem priority_scenario_multipath_rejected :
    mkRoute "/special/{path:multipath}" ["path"] ["GET"] 1 =
      Except.error (RouteError.unsupportedType "multipath") ∧
    (mkRoute "/special/priority" [] ["GET"] 10).map
        (fun r => (r.matches "/special/priority" "GET").1) = Except.ok true ∧
    (mkRoute "/special/{segment}" ["segment"] ["GET"] 5).map
        (fun r => r.matches "/special/anything" "GET") =
      Except.ok (true, [("segment", PValue.vStr "anything")]) :=
  ⟨rfl, rfl, rfl⟩

/-- Claim C8: `/users/{id:int}` matches `/users/123` yielding the integer
value `123` and does not match `/users/abc`; in general, a conversion
failure on any captured parameter makes the extraction report no match with
an empty parameter map instead of raising. -/
theorem int_param_match_and_conversion_failure :
    (mkRoute "/users/{id:int}" ["id"] ["GET"] 0).map
        (fun r => (r.matches "/users/123" "GET", r.matches "/users/abc" "GET")) =
      Except.ok ((true, [("id", PValue.vInt 123)]), (false, [])) ∧
    (∀ (pts : List (String × ParamType)) (caps : List (List Char))
        (i : Nat) (name : String) (ty : ParamType) (raw : List Char),
      pts[i]? = some (name, ty) →
      caps[i]? = some raw →
      convertParam ty (String.mk raw) = none →
      extractPathParameters pts caps = (false, [])) := by
  refine ⟨rfl, ?_⟩
  intro pts
  induction pts with
  | nil =>
    intro caps i name ty raw h1 h2 h3
    simp at h1
  | cons p pts ih =>
    intro caps i name ty raw h1 h2 h3
    obtain ⟨pn, pty⟩ := p
    cases caps with
    | nil => cases i <;> simp at h2
    | cons c caps2 =>
      cases i with
      | zero =>
        simp only [List.getElem?_cons_zero, Option.some.injEq] at h1 h2
        obtain ⟨rfl, rfl⟩ := Prod.mk.injEq .. ▸ h1
        subst h2
        simp [extractPathParameters, h3]
      | succ j =>
        simp only [List.getElem?_cons_succ] at h1 h2
        have hrec := ih caps2 j name ty raw h1 h2 h3
        cases hcv : convertParam pty (String.mk c) <;>
          simp [extractPathParameters, hcv, hrec]

/-- Witness for the general conversion-failure part of C8 at a concrete
parameter list and capture list. -/
theorem int_param_conversion_failure_witness :
    ([(("id" : String), ParamType.pint)][0]? = some ("id", ParamType.pint)) ∧
    ([[('a' : Char), 'b', 'c']][0]? = some ['a', 'b', 'c']) ∧
    convertParam ParamType.pint (String.mk ['a', 'b', 'c']) = none ∧
    extractPathParameters [("id", ParamType.pint)] [['a', 'b', 'c']] = (false, []) :=
  ⟨rfl, rfl, rfl,
    int_param_match_and_conversion_failure.2 _ _ 0 "id" ParamType.pint
      ['a', 'b', 'c'] rfl rfl rfl⟩

/-- Claim C10: `Route.matches` is case-insensitive in the method argument —
matching with a method string and with its uppercased form give the same
result, so a request method `get` matches a route registered for `GET`. -/
theorem matches_method_case_insensitive :
    (∀ (r : Route) (path m : String),
        r.matches path m = r.matches path (pyUpper m)) ∧
    (mkRoute "/x" [] ["GET"] 0).map (fun r => (r.matches "/x" "get").1) =
      Except.ok true := by
  refine ⟨?_, rfl⟩
  intro r path m
  unfold Route.matches
  rw [pyUpper_pyUpper]

/-- Claim C7: construction-time validation of handler parameters. The
validation run by `Route` construction succeeds exactly when the handler
parameter names (excluding the reserved `request` slot) coincide as a set
with the pattern parameter names; a mismatch in either direction yields an
error carrying exactly the offending names, and these are the only error
shapes the validation can produce. Constructing `/users/{id:int}` with a
missing or an extra handler parameter fails accordingly, while the exact
names (plus `request`) construct successfully. -/
theorem route_construction_param_consistency
    (pts : List (String × ParamType)) (hps : List String) :
    ((validateParameterConsistency pts hps = Except.ok () ↔
      (∀ x, x ∈ pts.map Prod.fst ↔ (x ∈ hps ∧ x ≠ "request"))) ∧
    (∀ names, validateParameterConsistency pts hps =
        Except.error (RouteError.missingInHandler names) →
      names ≠ [] ∧ ∀ x ∈ names, x ∈ pts.map Prod.fst ∧ ¬(x ∈ hps ∧ x ≠ "request")) ∧
    (∀ names, validateParameterConsistency pts hps =
        Except.error (RouteError.missingInRoute names) →
      names ≠ [] ∧ ∀ x ∈ names, (x ∈ hps ∧ x ≠ "request") ∧ x ∉ pts.map Prod.fst) ∧
    (∀ e, validateParameterConsistency pts hps = Except.error e →
      (∃ names, e = RouteError.missingInHandler names) ∨
      (∃ names, e = RouteError.missingInRoute names))) ∧
    mkRoute "/users/{id:int}" [] ["GET"] 0 =
      Except.error (RouteError.missingInHandler ["id"]) ∧
    mkRoute "/users/{id:int}" ["id", "extra"] ["GET"] 0 =
      Except.error (RouteError.missingInRoute ["extra"]) ∧
    (mkRoute "/users/{id:int}" ["id", "request"] ["GET"] 0).isOk = true := by
  refine ⟨?_, rfl, rfl, rfl⟩
  have memhpp : ∀ x, x ∈ hps.filter (fun p => !(p == "request")) ↔
      (x ∈ hps ∧ x ≠ "request") := by
    intro x
    simp [List.mem_filter]
  unfold validateParameterConsistency
  by_cases h1 : (pts.map Prod.fst).filter
      (fun p => !((hps.filter (fun q => !(q == "request"))).contains p)) = []
  · by_cases h2 : (hps.filter (fun q => !(q == "request"))).filter
        (fun p => !((pts.map Prod.fst).contains p)) = []
    · simp only [h1, h2, ne_eq, not_true_eq_false, if_false]
      refine ⟨?_, by simp, by simp, by simp⟩
      simp only [true_iff]
      intro x
      constructor
      · intro hx
        have := (List.filter_eq_nil_iff.mp h1) x hx
        rw [← memhpp]
        simpa [List.elem_iff] using this
      · intro hx
        have hx2 : x ∈ hps.filter (fun p => !(p == "request")) := (memhpp x).mpr hx
        have := (List.filter_eq_nil_iff.mp h2) x hx2
        simpa [List.elem_iff] using this
    · simp only [h1, h2, ne_eq, not_true_eq_false, if_false, if_neg, not_false_iff, if_true]
      refine ⟨?_, by simp, ?_, by simp⟩
      · constructor
        · intro hc
          simp at hc
        · intro hall
          exfalso
          obtain ⟨x, hx⟩ := List.exists_mem_of_ne_nil _ h2
          have hx2 := List.mem_filter.mp hx
          have hmem : x ∈ hps ∧ x ≠ "request" := (memhpp x).mp hx2.1
          have hrp : x ∈ pts.map Prod.fst := (hall x).mpr hmem
          have hcont : (pts.map Prod.fst).contains x = true := List.elem_iff.mpr hrp
          have hpred := hx2.2
          rw [hcont] at hpred
          simp at hpred
      · intro names hn
        have hinj : (hps.filter (fun q => !(q == "request"))).filter
            (fun p => !((pts.map Prod.fst).contains p)) = names := by
          simpa only [Except.error.injEq, RouteError.missingInRoute.injEq] using hn
        subst hinj
        refine ⟨h2, ?_⟩
        intro x hx
        have hx2 := List.mem_filter.mp hx
        refine ⟨(memhpp x).mp hx2.1, ?_⟩
        intro hrp
        have hcont : (pts.map Prod.fst).contains x = true := List.elem_iff.mpr hrp
        have hpred := hx2.2
        rw [hcont] at hpred
        simp at hpred
  · simp only [h1, ne_eq, not_false_iff, if_true]
    refine ⟨?_, ?_, by simp, by simp⟩
    · constructor
      · intro hc
        simp at hc
      · intro hall
        exfalso
        obtain ⟨x, hx⟩ := List.exists_mem_of_ne_nil _ h1
        have hx2 := List.mem_filter.mp hx
        have hmem : x ∈ hps ∧ x ≠ "request" := (hall x).mp hx2.1
        have hin : x ∈ hps.filter (fun p => !(p == "request")) := (memhpp x).mpr hmem
        have hcont : (hps.filter (fun q => !(q == "request"))).contains x = true :=
          List.elem_iff.mpr hin
        have hpred := hx2.2
        rw [hcont] at hpred
        simp at hpred
    · intro names hn
      have hinj : (pts.map Prod.fst).filter
          (fun p => !((hps.filter (fun q => !(q == "request"))).contains p)) = names := by
        simpa only [Except.error.injEq, RouteError.missingInHandler.injEq] using hn
      subst hinj
      refine ⟨h1, ?_⟩
      intro x hx
      have hx2 := List.mem_filter.mp hx
      refine ⟨hx2.1, ?_⟩
      intro hmem
      have hin : x ∈ hps.filter (fun p => !(p == "request")) := (memhpp x).mpr hmem
      have hcont : (hps.filter (fun q => !(q == "request"))).contains x = true :=
        List.elem_iff.mpr hin
      have hpred := hx2.2
      rw [hcont] at hpred
      simp at hpred

/-- Witness for C7: at a concrete mismatched input the validation fails
naming exactly the offending parameter. -/
theorem route_construction_param_consistency_witness :
    validateParameterConsistency [("a", ParamType.pstr)] [] =
      Except.error (RouteError.missingInHandler ["a"]) ∧
    (["a"] : List String) ≠ [] ∧
    ("a" ∈ ([("a", ParamType.pstr)].map Prod.fst) ∧
      ¬("a" ∈ ([] : List String) ∧ "a" ≠ "request")) :=
  ⟨rfl,
    ((route_construction_param_consistency [("a", ParamType.pstr)] []).1.2.1
      ["a"] rfl).1,
    ((route_construction_param_consistency [("a", ParamType.pstr)] []).1.2.1
      ["a"] rfl).2 "a" (by simp)⟩

/-- Counterexample to C9 as stated: the template `/a//b` is accepted by
`Route` construction with a precomputed segment count of 3, but it has only
2 slash-delimited non-empty segments. -/
theorem segment_count_counterexample :
    (mkRoute "/a//b" [] [] 0).map (fun r => r.segmentCount) = Except.ok 3 ∧
    specNonEmptySegCount "/a//b" = 2 ∧
    (3 : Nat) ≠ 2 :=
  ⟨rfl, rfl, by decide⟩

/-- Claim C9 (amended): for every template that starts with a slash and has
no empty segment, the segment count precomputed at `Route` construction
equals the number of slash-delimited non-empty segments of the template,
with the root template counting as exactly 1 segment. -/
theorem segment_count_nonempty_segments (t : String) (hps ms : List String)
    (prio : Int) (r : Route)
    (hmk : mkRoute t hps ms prio = Except.ok r)
    (h1 : t.data.head? = some '/')
    (h2 : hasDoubleSlash t.data = false) :
    r.segmentCount = if t = "/" then 1 else specNonEmptySegCount t := by
  rw [mkRoute_segmentCount t hps ms prio r hmk]
  exact countPathSegments_eq_nonempty t h1 h2

/-- Witness for C9 at the concrete template `/a/b`. -/
theorem segment_count_nonempty_segments_witness :
    mkRoute "/a/b" [] [] 0 = Except.ok
      (Route.mk "/a/b" ["GET"] [] [Tok.lit '/', Tok.lit 'a', Tok.lit '/', Tok.lit 'b']
        [] 2 false 0) ∧
    ("/a/b" : String).data.head? = some '/' ∧
    hasDoubleSlash ("/a/b" : String).data = false ∧
    (Route.mk "/a/b" ["GET"] [] [Tok.lit '/', Tok.lit 'a', Tok.lit '/', Tok.lit 'b']
        [] 2 false 0).segmentCount =
      if "/a/b" = "/" then 1 else specNonEmptySegCount "/a/b" :=
  ⟨rfl, rfl, rfl,
    segment_count_nonempty_segments "/a/b" [] [] 0 _ rfl rfl rfl⟩

end RoutingClaims

end FastASGI
